import Mathlib

/-!
Verification development for the `syzygia` package manager
(`src/syzygia/*.py`).  Each Python function relevant to the checked
properties is shallow-embedded as an executable Lean definition;
stateful code becomes explicit state passing, external transport
(`requests`, `shutil`) becomes an outcome oracle argument, and the
process RNG behind `random.choice` becomes an explicit draw argument.
-/

namespace Syzygia

/-- Embedding of `Package.__init__` (src/syzygia/package.py).  The
constructor merely stores its arguments; it performs no validation of
any field (in Python the `None` defaults are normalized to `[]`, which
the explicit list arguments model directly). -/
structure Package where
  name : String
  version : String
  description : String
  depends : List String
  provides : List String
  conflicts : List String
  size : Nat
  url : String
  packager : String
deriving Repr, DecidableEq

/-- Key membership in an insertion-ordered association list, modelling
`k in d` on a Python `dict`. -/
def dictContains {α : Type} (l : List (String × α)) (k : String) : Bool :=
  l.any (fun kv => kv.1 = k)

/-- Python `d[k] = v` on an insertion-ordered `dict`: an existing key
keeps its position and gets the new value, a fresh key is appended. -/
def dictInsert {α : Type} (l : List (String × α)) (k : String) (v : α) :
    List (String × α) :=
  if dictContains l k then
    l.map (fun kv => if kv.1 = k then (k, v) else kv)
  else l ++ [(k, v)]

/-- Python `del d[k]` (here: also removing every stale duplicate,
which never arises from the operations below). -/
def dictErase {α : Type} (l : List (String × α)) (k : String) :
    List (String × α) :=
  l.filter (fun kv => ¬ (kv.1 = k))

/-- Model of `Path.touch`: creates the file if absent, otherwise only updates
its timestamp (a no-op on the set of cache files). -/
def touchFile (fs : List String) (f : String) : List String :=
  if f ∈ fs then fs else fs ++ [f]

/-- Model of `s.split('-')[0]`, as used by `_install_package` on a package file
name. -/
def firstDashField (s : String) : String :=
  (s.data.takeWhile (fun c => c ≠ '-')).asString

/-- Observable state of a `PackageManager` (src/syzygia/package.py):
the in-memory installed-package database `installed_pkgs`, the on-disk
`desc` metadata files under `db_path/local/`, the package files present
in the cache directory, and the configured cache directory path. -/
structure PMState where
  installed : List (String × Package)
  dbDesc : List (String × String)
  cacheFiles : List String
  cacheDir : String
deriving Repr, DecidableEq

/-- The `desc` file written by `_install_package`. -/
def descContent (pkgName filePath : String) : String :=
  "name: " ++ pkgName ++ "\nversion: 1.0.0\ndescription: Installed from "
    ++ filePath ++ "\ndepends: \nprovides: " ++ pkgName ++ "\nconflicts: \n"

/-- Embedding of `PackageManager._install_package`: derives the package
name from the file name, records the package in `installed_pkgs` and
writes its `desc` file; it always reports success. -/
def installPackage (s : PMState) (filePath fileName : String) : PMState :=
  let pkgName := firstDashField fileName
  let pkg : Package :=
    ⟨pkgName, "1.0.0", "Installed from " ++ filePath, [], [pkgName], [], 0, "", ""⟩
  { s with
    installed := dictInsert s.installed pkgName pkg
    dbDesc := dictInsert s.dbDesc pkgName (descContent pkgName filePath) }

/-- One iteration of the loop in `PackageManager.install`: an already
installed name is skipped (success kept), otherwise a dummy package
file is touched in the cache and `_install_package` runs. -/
def installStep (s : PMState) (ok : Bool) (n : String) : PMState × Bool :=
  if dictContains s.installed n then (s, ok)
  else
    let fileName := n ++ "-1.0.0.pkg.tar.zst"
    let filePath := s.cacheDir ++ "/" ++ fileName
    let s1 := { s with cacheFiles := touchFile s.cacheFiles fileName }
    (installPackage s1 filePath fileName, ok)

/-- Embedding of `PackageManager.install` (the `nodeps` flag is
accepted and ignored, exactly as in the source). -/
def installMany (s : PMState) (packageNames : List String) (_nodeps : Bool) :
    PMState × Bool :=
  packageNames.foldl (fun acc n => installStep acc.1 acc.2 n) (s, true)

/-- Embedding of `PackageManager._find_dependents`: the packages whose
`depends` list contains the requested name literally.  `provides`
capabilities are not consulted. -/
def findDependents (s : PMState) (packageName : String) : List String :=
  (s.installed.map Prod.snd).filterMap
    (fun p => if packageName ∈ p.depends then some p.name else none)

/-- Embedding of `PackageManager._remove_package`: deletes the package
directory from the database and the in-memory entry; it reports
success. -/
def removePkgState (s : PMState) (n : String) : PMState :=
  { s with dbDesc := dictErase s.dbDesc n, installed := dictErase s.installed n }

/-- One iteration of the loop in `PackageManager.remove`: a name that
is not installed is skipped (success kept); with dependents and without
`nodeps` the name is kept installed and overall success drops to
`false`; otherwise the package is removed. -/
def removeStep (nodeps : Bool) (s : PMState) (ok : Bool) (n : String) :
    PMState × Bool :=
  if ¬ dictContains s.installed n then (s, ok)
  else if nodeps = false ∧ findDependents s n ≠ [] then (s, false)
  else (removePkgState s n, ok)

/-- Embedding of `PackageManager.remove`. -/
def removeMany (s : PMState) (packageNames : List String) (nodeps : Bool) :
    PMState × Bool :=
  packageNames.foldl (fun acc n => removeStep nodeps acc.1 acc.2 n) (s, true)

/-- The loop of `PackageManager.remove` run from an arbitrary
accumulator (current state, success flag); `removeMany` is this
runner started at `(s, true)`. -/
def removeFrom (nodeps : Bool) (acc : PMState × Bool) (packageNames : List String) :
    PMState × Bool :=
  packageNames.foldl (fun a n => removeStep nodeps a.1 a.2 n) acc

/-- Embedding of `PackageManager.upgrade`.  `none` models the Python
default argument `package_names=None` (upgrade everything installed);
`some l` models an explicit list, as passed by the CLI.  The middle
component is the list of names actually processed for upgrade (those
reaching the per-package check-and-reinstall step); `update()` is a
stub returning `True` with no state effect, and the result flag is
always `true`. -/
def upgradeRun (s : PMState) (packageNames : Option (List String)) :
    PMState × List String × Bool :=
  let names := match packageNames with
    | none => s.installed.map Prod.fst
    | some l => l
  let res := names.foldl
    (fun (acc : PMState × List String) n =>
      if ¬ dictContains acc.1.installed n then acc
      else ((installMany acc.1 [n] false).1, acc.2 ++ [n]))
    (s, [])
  (res.1, res.2, true)

/-! ### Validators (src/syzygia/utils/validator.py) -/

/-- The character class `[a-zA-Z0-9@._+-]` used by
`validate_package_name`. -/
def pkgNameChar (c : Char) : Bool :=
  c.isAlphanum || c == '@' || c == '.' || c == '_' || c == '+' || c == '-'

/-- Embedding of `validate_package_name`.  The checks run in source
order: empty, character class, first character alphanumeric, last
character alphanumeric-or-underscore.  (Python's Unicode-aware
`str.isalnum` is only consulted after the ASCII character-class check
has passed, so the ASCII `Char.isAlphanum` here gives the same result
on every input.) -/
def validate_package_name (name : String) : Bool × String :=
  match name.data with
  | [] => (false, "Package name cannot be empty")
  | c :: cs =>
    if ¬ (c :: cs).all pkgNameChar then
      (false, "Package name contains invalid characters. Only alphanumeric, @, ., _, +, - are allowed.")
    else if ¬ c.isAlphanum then
      (false, "Package name must start with an alphanumeric character")
    else if ¬ ((cs.getLastD c).isAlphanum || cs.getLastD c == '_') then
      (false, "Package name must end with an alphanumeric character or underscore")
    else (true, "")

/-- The character class `[a-zA-Z0-9._+:~-]` used by
`validate_package_version`. -/
def verChar (c : Char) : Bool :=
  c.isAlphanum || c == '.' || c == '_' || c == '+' || c == ':' || c == '~' || c == '-'

/-- Python `re.match(r'^C+$', s)` for a character class `C` that does
not contain a newline: the `$` anchor matches at the end of the string
or just before a newline at the end of the string, so the match
succeeds exactly when the string, with at most one trailing newline
removed, is non-empty and lies entirely in the class. -/
def reFullMatchDollar (cls : Char → Bool) (l : List Char) : Bool :=
  let core := if l.getLast? = some '\n' then l.dropLast else l
  (!core.isEmpty) && core.all cls

/-- Embedding of `validate_package_version`: empty check, then
first-character digit check, then the regex check — whose `$` anchor
also accepts a version with a single trailing newline, e.g.
`"1.0\n"`, since the function has no end-character check.  (Python's
`str.isdigit` also accepts some non-ASCII digits; those strings then
fail the character class, so the Boolean verdict of this ASCII model
agrees with the source on every input, though the error text for a
string led by a non-ASCII digit differs.) -/
def validate_package_version (version : String) : Bool × String :=
  match version.data with
  | [] => (false, "Version cannot be empty")
  | c :: cs =>
    if ¬ c.isDigit then (false, "Version must start with a digit")
    else if ¬ reFullMatchDollar verChar (c :: cs) then
      (false, "Version contains invalid characters")
    else (true, "")

/-! ### Repository (src/syzygia/repo.py) -/

/-- State of a `Repository` object: constructor fields plus the
`packages` catalog (name to key/value metadata) and the private
`_initialized` flag. -/
structure Repository where
  name : String
  url : String
  sigLevel : String
  packages : List (String × List (String × String))
  initializedFlag : Bool
deriving Repr, DecidableEq

/-- Embedding of `Repository.initialize`: if already initialized it
returns `True`; otherwise the database-loading body is an empty stub
(a TODO in the source), so it only sets `_initialized` and returns
`True`.  No signature is ever read and `sig_level` is never consulted. -/
def Repository.initializeRepo (r : Repository) : Repository × Bool :=
  if r.initializedFlag then (r, true)
  else ({ r with initializedFlag := true }, true)

/-! ### Mirror manager (src/syzygia/mirror.py)

The transport layer (`requests`, `shutil.copy2`) is abstracted by an
outcome oracle: for each mirror it either yields the full byte
content, raises before the destination file is opened, or raises after
a partial prefix has been written.  File contents are byte lists; the
destination path holds `none` when no file exists there. -/

inductive RemoteOutcome where
  /-- The streamed request succeeds; the chunks are written in full. -/
  | okBytes (chunks : List (List Nat))
  /-- An exception is raised at `requests.get`/`raise_for_status`
  (or before `shutil.copy2` writes), before the destination is opened. -/
  | failEarly
  /-- An exception is raised while iterating the stream, after the
  listed chunks have been written to the destination. -/
  | failMid (written : List (List Nat))
deriving Repr, DecidableEq

/-- Embedding of `MirrorManager._download_remote`: writes the streamed
chunks to the destination and returns `True`; there is no cleanup code,
so an exception after a partial write (`failMid`) leaves the partial
file behind.  The Boolean is `false` when the call raised. -/
def downloadRemote (dest : Option (List Nat)) (o : RemoteOutcome) :
    Option (List Nat) × Bool :=
  match o with
  | .okBytes cs => (some cs.flatten, true)
  | .failEarly => (dest, false)
  | .failMid w => (some w.flatten, false)

/-- Result of `MirrorManager.download_file`: destination file state,
overall Boolean result, and the mirrors attempted in order. -/
structure MirrorFetchResult where
  file : Option (List Nat)
  ok : Bool
  attempts : List String
deriving Repr, DecidableEq

/-- The mirror loop of `MirrorManager.download_file`: each mirror is
tried once in list order; an exception is caught and the loop advances
to the next mirror; a completed download returns `True` immediately;
running out of mirrors returns `False`. -/
def mirrorDownloadLoop (f : String → RemoteOutcome) :
    List String → Option (List Nat) → MirrorFetchResult
  | [], d => ⟨d, false, []⟩
  | m :: ms, d =>
    let r := downloadRemote d (f m)
    if r.2 then ⟨r.1, true, [m]⟩
    else
      let rest := mirrorDownloadLoop f ms r.1
      ⟨rest.file, rest.ok, m :: rest.attempts⟩

/-- Embedding of `MirrorManager.download_file` for a configured mirror
list. -/
def mirrorDownloadFile (mirrors : List String) (f : String → RemoteOutcome)
    (dest : Option (List Nat)) : MirrorFetchResult :=
  mirrorDownloadLoop f mirrors dest

/-- Embedding of `MirrorManager.get_best_mirror`: `None` on an empty
list, otherwise `random.choice(self.mirrors)`, modelled as indexing by
a draw `r` from the process RNG. -/
def get_best_mirror (mirrors : List String) (r : Nat) : Option String :=
  if mirrors.isEmpty then none
  else mirrors.get? (r % mirrors.length)

/-! ### Downloader (src/syzygia/utils/downloader.py) -/

/-- Transport outcome for one `requests.get` call in
`download_file`. -/
inductive HttpOutcome where
  /-- A `RequestException` at `get`/`raise_for_status`; nothing written. -/
  | reqFail
  /-- Exception while iterating the stream, after the listed chunks
  were written. -/
  | midFail (written : List (List Nat))
  /-- Complete response with the listed chunks and the
  `content-length` header value (`0` when the header is absent). -/
  | okResp (chunks : List (List Nat)) (contentLength : Nat)
deriving Repr, DecidableEq

namespace Downloader

/-- Embedding of `downloader.download_file`.  Every failure path
(transport error before or during the stream, or a size mismatch
against a non-zero `content-length`) removes whatever file exists at
the destination before returning `False`; empty keep-alive chunks are
filtered out before writing. -/
def download_file (o : HttpOutcome) (_dest : Option (List Nat)) :
    Option (List Nat) × Bool :=
  match o with
  | .reqFail => (none, false)
  | .midFail _ => (none, false)
  | .okResp cs len =>
    let content := (cs.filter (fun c => ¬ c.isEmpty)).flatten
    if len ≠ 0 ∧ content.length ≠ len then (none, false)
    else (some content, true)

/-- Embedding of `downloader.verify_checksum`: `False` when the file
does not exist, otherwise the digest comparison, abstracted as a
predicate `chk` on the file content. -/
def verify_checksum (chk : List Nat → Bool) (file : Option (List Nat)) : Bool :=
  match file with
  | none => false
  | some c => chk c

/-- Result of `download_with_retry`: destination file state, Boolean
result, the URL attempted on each pass of the loop, and the backoff
sleeps performed (in seconds). -/
structure RetryResult where
  file : Option (List Nat)
  ok : Bool
  attempts : List String
  sleeps : List Nat
deriving Repr, DecidableEq

/-- The `for attempt in range(max_retries)` loop of
`download_with_retry`; `attempt` is the current index and the second
argument the number of iterations left.  A failed attempt that is not
the last sleeps `2 ** attempt` seconds; a checksum mismatch removes
the downloaded file before retrying. -/
def retryGo (url : String) (o : Nat → HttpOutcome) (chk : Option (List Nat → Bool)) :
    Nat → Nat → Option (List Nat) → RetryResult
  | _, 0, d => ⟨d, false, [], []⟩
  | attempt, remaining + 1, d =>
    let r := download_file (o attempt) d
    let failCont : Option (List Nat) → RetryResult := fun d1 =>
      if remaining = 0 then ⟨d1, false, [url], []⟩
      else
        let rest := retryGo url o chk (attempt + 1) remaining d1
        ⟨rest.file, rest.ok, url :: rest.attempts, (2 ^ attempt) :: rest.sleeps⟩
    if r.2 then
      match chk with
      | none => ⟨r.1, true, [url], []⟩
      | some c =>
        if verify_checksum c r.1 then ⟨r.1, true, [url], []⟩
        else failCont none
    else failCont r.1

/-- Embedding of `downloader.download_with_retry` (the source default
is `max_retries = 3`).  Each pass of its loop attempts the single
given URL; the mirror list plays no part here. -/
def download_with_retry (url : String) (o : Nat → HttpOutcome)
    (chk : Option (List Nat → Bool)) (maxRetries : Nat)
    (dest : Option (List Nat)) : RetryResult :=
  retryGo url o chk 0 maxRetries dest

end Downloader

/-! ### Claim-side predicates and concrete inputs -/

/-- The acceptance predicate stated by claim C8: non-empty, all
characters in `[A-Za-z0-9@._+-]`, and both the first and the last
character alphanumeric or underscore. -/
def claimNameAccepts (name : String) : Bool :=
  match name.data with
  | [] => false
  | c :: cs =>
    (c :: cs).all pkgNameChar && (c.isAlphanum || c == '_')
      && ((cs.getLastD c).isAlphanum || cs.getLastD c == '_')

/-- The corrected acceptance predicate: as claim C8, except that the
first character must be alphanumeric (an underscore is allowed only at
the end). -/
def amendedNameOk (name : String) : Bool :=
  match name.data with
  | [] => false
  | c :: cs =>
    (c :: cs).all pkgNameChar && c.isAlphanum
      && ((cs.getLastD c).isAlphanum || cs.getLastD c == '_')

/-- The corrected validity predicate for version strings: the string
starts with a digit, and after ignoring at most one trailing newline
(which the regex `$` anchor tolerates) a non-empty core remains whose
characters all lie in `[a-zA-Z0-9._+:~-]`. -/
def amendedVersionAccepts (version : String) : Prop :=
  ∃ core : List Char,
    (version.data = core ∨ version.data = core ++ ['\n']) ∧
    core ≠ [] ∧
    (version.data.headD ' ').isDigit = true ∧
    core.all verChar = true

/-- A `Package` built by the constructor with an empty (hence
malformed) version string. -/
def badVersionPkg : Package :=
  ⟨"x", "", "", [], [], [], 0, "", ""⟩

/-- A repository whose signature level is `Required` and whose
database has never been loaded (no signature present anywhere). -/
def requiredRepo : Repository :=
  ⟨"core", "https://archlinux.org/packages/core/os/x86_64", "Required", [], false⟩

/-- Concrete installed package for the C10 witness. -/
def c10Pkg : Package := ⟨"foo", "1.0.0", "", [], ["foo"], [], 0, "", ""⟩

/-- Concrete manager state with `foo` installed, for the C10 witness. -/
def c10State : PMState := ⟨[("foo", c10Pkg)], [], [], "/var/cache/syzygia"⟩

/-- A package providing the capability `cap` under the bare name `p`. -/
def capPkgP : Package := ⟨"p", "1.0-1", "", [], ["cap"], [], 0, "", ""⟩

/-- A package depending on the capability `cap` (not on `p` itself). -/
def capPkgQ : Package := ⟨"q", "1.0-1", "", ["cap"], [], [], 0, "", ""⟩

/-- State with both capability-linked packages installed. -/
def c2CapState : PMState :=
  ⟨[("p", capPkgP), ("q", capPkgQ)], [], [], "/var/cache/syzygia"⟩

/-- The spec's own blocked-removal example: `foo` depends on `bar`. -/
def fooPkg : Package := ⟨"foo", "1.0-1", "", ["bar"], [], [], 0, "", ""⟩

/-- The dependency target `bar` of the blocked-removal example. -/
def barPkg : Package := ⟨"bar", "1.0-1", "", [], [], [], 0, "", ""⟩

/-- State with `foo` and `bar` installed, `foo` depending on `bar`. -/
def c2State : PMState :=
  ⟨[("foo", fooPkg), ("bar", barPkg)], [], [], "/var/cache/syzygia"⟩

/-- Freestanding package `a` of the C1 scenario. -/
def c1PkgA : Package := ⟨"a", "1.0-1", "", [], [], [], 0, "", ""⟩

/-- Package `b`, depended upon by `d`, of the C1 scenario. -/
def c1PkgB : Package := ⟨"b", "1.0-1", "", [], [], [], 0, "", ""⟩

/-- Freestanding package `c` of the C1 scenario, requested after the
failing operation. -/
def c1PkgC : Package := ⟨"c", "1.0-1", "", [], [], [], 0, "", ""⟩

/-- Package `d`, depending on `b`, of the C1 scenario. -/
def c1PkgD : Package := ⟨"d", "1.0-1", "", ["b"], [], [], 0, "", ""⟩

/-- Pre-request database of the C1 scenario. -/
def c1State : PMState :=
  ⟨[("a", c1PkgA), ("b", c1PkgB), ("c", c1PkgC), ("d", c1PkgD)], [], [],
    "/var/cache/syzygia"⟩

/-- Installed package for the C3 scenario. -/
def c3Pkg : Package := ⟨"foo", "1.0.0", "", [], ["foo"], [], 0, "", ""⟩

/-- Database with one installed package, for the C3 scenario. -/
def c3State : PMState := ⟨[("foo", c3Pkg)], [], [], "/var/cache/syzygia"⟩

/-! ### C8 — package-name validation -/

/-- C8 counterexample: the claim's predicate accepts `"_a"` (it starts
with an underscore), but `validate_package_name` rejects it — the
source requires the first character to be alphanumeric, underscore is
only allowed at the end. -/
theorem c8_counterexample :
    claimNameAccepts "_a" = true ∧ (validate_package_name "_a").1 = false := by
  decide

/-- C8 amended: package-name validation accepts exactly the non-empty
strings over `[A-Za-z0-9@._+-]` whose first character is alphanumeric
and whose last character is alphanumeric or an underscore. -/
theorem c8_amended (name : String) :
    (validate_package_name name).1 = amendedNameOk name := by
  unfold validate_package_name amendedNameOk
  cases h : name.data with
  | nil => rfl
  | cons c cs =>
    simp only [List.getLastD_eq_getLast?]
    by_cases h1 : (c :: cs).all pkgNameChar = true <;>
      by_cases h2 : c.isAlphanum = true <;>
        by_cases h3 : (cs.getLast?.getD c).isAlphanum = true <;>
          by_cases h4 : cs.getLast?.getD c = '_' <;>
            simp [h1, h2, h3, h4]

/-! ### C9 — version validation at Package construction -/

/-- C9 counterexample: the constructor `Package.__init__` performs no
validation, so a `Package` carrying the empty version string — which
`validate_package_version` rejects — is constructed without error. -/
theorem c9_counterexample :
    badVersionPkg.version = "" ∧ (validate_package_version "").1 = false := by
  decide

/-- The match verdict of the version regex: it succeeds exactly when
the string, minus at most one trailing newline, is a non-empty run of
class characters (for a class that excludes the newline itself). -/
theorem reFullMatchDollar_iff (cls : Char → Bool) (hnl : cls '\n' = false)
    (l : List Char) :
    reFullMatchDollar cls l = true ↔
      ∃ core : List Char,
        (l = core ∨ l = core ++ ['\n']) ∧ core ≠ [] ∧ core.all cls = true := by
  have hbool : ∀ m : List Char,
      ((!m.isEmpty && m.all cls) = true) ↔ (m ≠ [] ∧ m.all cls = true) := by
    intro m
    cases m <;> simp
  by_cases hl : l.getLast? = some '\n'
  · have hne0 : l ≠ [] := by
      intro he
      subst he
      simp at hl
    have hg : l.getLast hne0 = '\n' := by
      have h2 := (List.getLast?_eq_getLast l hne0).symm.trans hl
      exact Option.some.inj h2
    have hsplit : l.dropLast ++ ['\n'] = l := by
      rw [← hg]
      exact List.dropLast_append_getLast hne0
    simp only [reFullMatchDollar]
    rw [if_pos hl, hbool]
    constructor
    · rintro ⟨h1, h2⟩
      exact ⟨l.dropLast, Or.inr hsplit.symm, h1, h2⟩
    · rintro ⟨core, hor, hne, hall⟩
      rcases hor with rfl | hc
      · exfalso
        have hm := List.getLast_mem hne0
        rw [hg] at hm
        have hcl := List.all_eq_true.mp hall '\n' hm
        rw [hnl] at hcl
        exact Bool.false_ne_true hcl
      · have hdrop : l.dropLast = core := by
          rw [hc]
          exact List.dropLast_concat
        rw [hdrop]
        exact ⟨hne, hall⟩
  · simp only [reFullMatchDollar]
    rw [if_neg hl, hbool]
    constructor
    · rintro ⟨h1, h2⟩
      exact ⟨l, Or.inl rfl, h1, h2⟩
    · rintro ⟨core, hor, hne, hall⟩
      rcases hor with rfl | hc
      · exact ⟨hne, hall⟩
      · exfalso
        apply hl
        rw [hc]
        exact List.getLast?_concat core

/-- C9 amended: `validate_package_version` accepts exactly the
version strings that start with a digit and whose characters — after
ignoring at most one trailing newline, which the regex `$` anchor
tolerates — form a non-empty core inside `[a-zA-Z0-9._+:~-]`; but
`Package` construction performs no validation: the constructor is
total and stores any version string unchanged. -/
theorem c9_amended :
    (∀ version : String,
        (validate_package_version version).1 = true ↔ amendedVersionAccepts version) ∧
      (∀ (a b c : String) (d e f : List String) (g : Nat) (h i : String),
        (Package.mk a b c d e f g h i).version = b) := by
  refine ⟨fun version => ?_, fun _ _ _ _ _ _ _ _ _ => rfl⟩
  unfold validate_package_version amendedVersionAccepts
  cases hd : version.data with
  | nil =>
    constructor
    · intro hcontra
      simp at hcontra
    · rintro ⟨core, hor, hne, -, -⟩
      rcases hor with hc | hc
      · exact absurd hc.symm hne
      · simp at hc
  | cons c cs =>
    simp only [List.headD_cons]
    by_cases h1 : c.isDigit = true
    · rw [if_neg (not_not_intro h1)]
      have hiff :
          ((if ¬ reFullMatchDollar verChar (c :: cs) = true then
              ((false : Bool), "Version contains invalid characters")
            else (true, "")).1 = true) ↔
            reFullMatchDollar verChar (c :: cs) = true := by
        by_cases hb : reFullMatchDollar verChar (c :: cs) = true <;> simp [hb]
      rw [hiff, reFullMatchDollar_iff verChar (by decide) (c :: cs)]
      constructor
      · rintro ⟨core, hor, hne, hall⟩
        exact ⟨core, hor, hne, h1, hall⟩
      · rintro ⟨core, hor, hne, -, hall⟩
        exact ⟨core, hor, hne, hall⟩
    · rw [if_pos h1]
      constructor
      · intro hcontra
        simp at hcontra
      · rintro ⟨core, -, -, hdig, -⟩
        exact absurd hdig h1

/-! ### C5 — signature level never enforced -/

/-- C5 counterexample: initializing a repository whose signature level
is `Required`, with no signature anywhere (the database is never even
loaded), succeeds and yields an empty catalog — it does not fail hard;
the `Required` level is silently ignored. -/
theorem c5_counterexample :
    requiredRepo.sigLevel = "Required" ∧
      requiredRepo.initializeRepo.2 = true ∧
      requiredRepo.initializeRepo.1.packages = [] := by
  decide

/-- C5 amended: `Repository.initialize` never verifies a signature:
for every repository — whatever its signature level — it reports
success, leaves the package catalog unchanged, and only sets the
initialized flag. -/
theorem c5_amended (r : Repository) :
    r.initializeRepo.2 = true ∧
      r.initializeRepo.1.packages = r.packages ∧
      r.initializeRepo.1.sigLevel = r.sigLevel ∧
      r.initializeRepo.1.initializedFlag = true := by
  unfold Repository.initializeRepo
  by_cases h : r.initializedFlag = true <;> simp [h]

/-! ### C4 — mirror selection determinism -/

/-- C4 counterexample: `get_best_mirror` is `random.choice`: two runs
whose RNG draws differ select different mirrors from the same
configured list, and on first use (no stats exist at all) the draw
`1` yields the second mirror, not the first of the configured order. -/
theorem c4_counterexample :
    get_best_mirror ["http://m1", "http://m2"] 0 = some "http://m1" ∧
      get_best_mirror ["http://m1", "http://m2"] 1 = some "http://m2" ∧
      get_best_mirror ["http://m1", "http://m2"] 0 ≠
        get_best_mirror ["http://m1", "http://m2"] 1 := by
  decide

/-- The mirror fallback loop with an oracle that raises before writing
on every mirror traverses the whole list in order and fails. -/
theorem mirrorLoop_failEarly (mirrors : List String) (d : Option (List Nat)) :
    mirrorDownloadLoop (fun _ => RemoteOutcome.failEarly) mirrors d =
      ⟨d, false, mirrors⟩ := by
  induction mirrors generalizing d with
  | nil => rfl
  | cons m ms ih => simp [mirrorDownloadLoop, downloadRemote, ih]

/-- The mirrors attempted by the fallback loop form an initial segment
of the configured list. -/
theorem mirrorLoop_attempts_take (f : String → RemoteOutcome)
    (mirrors : List String) (d : Option (List Nat)) :
    ∃ k, (mirrorDownloadLoop f mirrors d).attempts = mirrors.take k := by
  induction mirrors generalizing d with
  | nil => exact ⟨0, rfl⟩
  | cons m ms ih =>
    by_cases h : (downloadRemote d (f m)).2 = true
    · exact ⟨1, by simp [mirrorDownloadLoop, h]⟩
    · obtain ⟨k, hk⟩ := ih (downloadRemote d (f m)).1
      refine ⟨k + 1, ?_⟩
      simp [mirrorDownloadLoop, h, hk]

/-- C4 amended: selection via `get_best_mirror` is a uniform random
choice — the mirror returned is the configured list indexed by the
process RNG draw, so runs with different draws may differ — while the
fallback traversal in `download_file` is deterministic: the attempted
mirrors are always an initial segment of the configured list, the
whole list in configured order when every mirror fails. -/
theorem c4_amended :
    (∀ (mirrors : List String) (r : Nat),
        get_best_mirror mirrors r = mirrors.get? (r % mirrors.length)) ∧
      (∀ (mirrors : List String) (f : String → RemoteOutcome) (d : Option (List Nat)),
        ∃ k, (mirrorDownloadFile mirrors f d).attempts = mirrors.take k) ∧
      (∀ (mirrors : List String) (d : Option (List Nat)),
        (mirrorDownloadFile mirrors (fun _ => RemoteOutcome.failEarly) d).attempts =
          mirrors) := by
  refine ⟨fun mirrors r => ?_, fun mirrors f d => ?_, fun mirrors d => ?_⟩
  · cases mirrors with
    | nil => simp [get_best_mirror]
    | cons m ms => simp [get_best_mirror]
  · exact mirrorLoop_attempts_take f mirrors d
  · simp [mirrorDownloadFile, mirrorLoop_failEarly]

/-! ### Association-list lemmas for the package database -/

theorem dictContains_iff {α : Type} (l : List (String × α)) (k : String) :
    dictContains l k = true ↔ ∃ kv ∈ l, kv.1 = k := by
  simp [dictContains, List.any_eq_true]

theorem touchFile_mem (fs : List String) (f : String) : f ∈ touchFile fs f := by
  by_cases h : f ∈ fs <;> simp [touchFile, h]

theorem touchFile_idem (fs : List String) (f : String) :
    touchFile (touchFile fs f) f = touchFile fs f := by
  by_cases h : f ∈ fs <;> simp [touchFile, h]

theorem dictContains_dictInsert_self {α : Type} (l : List (String × α))
    (k : String) (v : α) : dictContains (dictInsert l k v) k = true := by
  by_cases h : dictContains l k = true
  · simp only [dictInsert, h, if_true]
    rw [dictContains_iff] at h ⊢
    obtain ⟨kv, hm, hk⟩ := h
    exact ⟨(k, v), List.mem_map.mpr ⟨kv, hm, by simp [hk]⟩, rfl⟩
  · simp only [dictInsert, h, if_false, Bool.false_eq_true]
    rw [dictContains_iff]
    exact ⟨(k, v), by simp, rfl⟩

theorem dictContains_dictInsert_ne {α : Type} (l : List (String × α))
    (k k' : String) (v : α) (hne : k' ≠ k) :
    dictContains (dictInsert l k v) k' = dictContains l k' := by
  have hne' : k ≠ k' := Ne.symm hne
  by_cases h : dictContains l k = true
  · simp only [dictInsert, h, if_true]
    apply Bool.eq_iff_iff.mpr
    rw [dictContains_iff, dictContains_iff]
    constructor
    · rintro ⟨kv, hm, hk⟩
      obtain ⟨kv0, hm0, hf⟩ := List.mem_map.mp hm
      by_cases h0 : kv0.1 = k
      · exfalso
        rw [← hf] at hk
        simp [h0] at hk
        exact hne' hk
      · refine ⟨kv0, hm0, ?_⟩
        rw [← hf] at hk
        simpa [h0] using hk
    · rintro ⟨kv, hm, hk⟩
      have h0 : ¬ kv.1 = k := by rw [hk]; exact hne
      exact ⟨kv, List.mem_map.mpr ⟨kv, hm, by simp [h0]⟩, by simp [h0, hk]⟩
  · simp only [dictInsert, h, if_false, Bool.false_eq_true]
    apply Bool.eq_iff_iff.mpr
    rw [dictContains_iff, dictContains_iff]
    constructor
    · rintro ⟨kv, hm, hk⟩
      rcases List.mem_append.mp hm with hl | hr
      · exact ⟨kv, hl, hk⟩
      · exfalso
        simp at hr
        rw [hr] at hk
        exact hne' hk
    · rintro ⟨kv, hm, hk⟩
      exact ⟨kv, List.mem_append.mpr (Or.inl hm), hk⟩

theorem dictInsert_idem {α : Type} (l : List (String × α)) (k : String) (v : α) :
    dictInsert (dictInsert l k v) k v = dictInsert l k v := by
  by_cases h : dictContains l k = true
  · have h2 : dictContains (dictInsert l k v) k = true :=
      dictContains_dictInsert_self l k v
    simp only [dictInsert, h, if_true] at h2 ⊢
    rw [if_pos h2, List.map_map]
    apply List.map_congr_left
    intro kv _
    by_cases hk : kv.1 = k <;> simp [hk, Function.comp]
  · have h2 : dictContains (dictInsert l k v) k = true :=
      dictContains_dictInsert_self l k v
    simp only [dictInsert, h, if_false, Bool.false_eq_true] at h2 ⊢
    rw [if_pos h2, List.map_append]
    have hall : ∀ kv ∈ l, ¬ kv.1 = k := by
      intro kv hm hk
      exact h (dictContains_iff l k |>.mpr ⟨kv, hm, hk⟩)
    congr 1
    · calc l.map (fun kv => if kv.1 = k then (k, v) else kv)
          = l.map id := List.map_congr_left (fun kv hm => by simp [hall kv hm])
        _ = l := List.map_id l
    · simp

theorem length_dictErase_lt {α : Type} (l : List (String × α)) (k : String)
    (h : dictContains l k = true) : (dictErase l k).length < l.length := by
  rw [dictContains_iff] at h
  obtain ⟨kv, hm, hk⟩ := h
  exact List.length_filter_lt_length_iff_exists.mpr ⟨kv, hm, by simp [hk]⟩

theorem dictContains_dictErase_self {α : Type} (l : List (String × α))
    (k : String) : dictContains (dictErase l k) k = false := by
  cases hcb : dictContains (dictErase l k) k with
  | false => rfl
  | true =>
    exfalso
    rw [dictContains_iff] at hcb
    obtain ⟨kv, hm, hk⟩ := hcb
    have hmf := List.mem_filter.mp hm
    simp [hk] at hmf

theorem dictContains_dictErase_ne {α : Type} (l : List (String × α))
    (k k' : String) (hne : k' ≠ k) :
    dictContains (dictErase l k) k' = dictContains l k' := by
  apply Bool.eq_iff_iff.mpr
  rw [dictContains_iff, dictContains_iff]
  constructor
  · rintro ⟨kv, hm, hk⟩
    exact ⟨kv, (List.mem_filter.mp hm).1, hk⟩
  · rintro ⟨kv, hm, hk⟩
    refine ⟨kv, List.mem_filter.mpr ⟨hm, ?_⟩, hk⟩
    simp [hk, hne]

/-! ### C10 — per-name idempotence of install -/

/-- C10: installing a name that is already installed leaves the whole
manager state unchanged and reports success, and — for any name at
all — running `install` on the same single name twice in a row yields
exactly the state and result of running it once. -/
theorem c10_install_idempotent (s : PMState) (n : String) (nd : Bool) :
    (dictContains s.installed n = true → installMany s [n] nd = (s, true)) ∧
      installMany (installMany s [n] nd).1 [n] nd = installMany s [n] nd := by
  constructor
  · intro h
    show installStep s true n = (s, true)
    simp [installStep, h]
  · by_cases h : dictContains s.installed n = true
    · have h1 : installMany s [n] nd = (s, true) := by
        show installStep s true n = (s, true)
        simp [installStep, h]
      rw [h1, h1]
    · show installStep (installStep s true n).1 true n = installStep s true n
      simp only [installStep, h, if_false, Bool.false_eq_true, if_neg]
      set fileName := n ++ "-1.0.0.pkg.tar.zst" with hfn
      by_cases h2 :
          dictContains (installPackage
            { s with cacheFiles := touchFile s.cacheFiles fileName }
            (s.cacheDir ++ "/" ++ fileName) fileName).installed n = true
      · simp [h2]
      · simp only [h2, if_false, Bool.false_eq_true, if_neg, installPackage]
        simp [touchFile_idem, dictInsert_idem]

/-- C10 witness: the idempotence theorem applied at a concrete state
with `foo` already installed. -/
theorem c10_witness :
    installMany c10State ["foo"] false = (c10State, true) ∧
      installMany (installMany c10State ["foo"] false).1 ["foo"] false =
        installMany c10State ["foo"] false :=
  ⟨(c10_install_idempotent c10State "foo" false).1 (by decide),
    (c10_install_idempotent c10State "foo" false).2⟩

/-! ### C2 — removal blocked only by literal name dependents -/

/-- C2 counterexample: `q` depends on the capability `cap` that `p`
provides, yet removing `p` without `allow_nodeps` succeeds and `p` is
gone — `_find_dependents` matches only literal names in `depends`,
never `provides` capabilities, so the claimed "if and only if" fails
in the capability direction. -/
theorem c2_counterexample :
    "cap" ∈ capPkgP.provides ∧ "cap" ∈ capPkgQ.depends ∧
      removeMany c2CapState ["p"] false =
        (⟨[("q", capPkgQ)], [], [], "/var/cache/syzygia"⟩, true) := by
  decide

/-- C2 amended: for an installed package `p`, removal without
`allow_nodeps` is blocked (state untouched, failure reported) exactly
when some installed package (possibly `p` itself) lists `p`'s name
literally in `depends`; capabilities `p` provides are not considered;
with `allow_nodeps` the removal always proceeds. -/
theorem c2_amended (s : PMState) (p : String)
    (h : dictContains s.installed p = true) :
    (findDependents s p ≠ [] ↔ ∃ kv ∈ s.installed, p ∈ kv.2.depends) ∧
      (findDependents s p ≠ [] → removeMany s [p] false = (s, false)) ∧
      (findDependents s p = [] → removeMany s [p] false = (removePkgState s p, true)) ∧
      removeMany s [p] true = (removePkgState s p, true) := by
  refine ⟨?_, fun hd => ?_, fun hd => ?_, ?_⟩
  · rw [Ne, findDependents, List.filterMap_eq_nil_iff]
    constructor
    · intro hne
      by_contra hnone
      apply hne
      intro q hq
      obtain ⟨kv, hkv, rfl⟩ := List.mem_map.mp hq
      have : ¬ p ∈ kv.2.depends := fun hin => hnone ⟨kv, hkv, hin⟩
      simp [this]
    · rintro ⟨kv, hkv, hin⟩ hall
      have := hall kv.2 (List.mem_map.mpr ⟨kv, hkv, rfl⟩)
      simp [hin] at this
  · show removeStep false s true p = (s, false)
    simp [removeStep, h, hd]
  · show removeStep false s true p = (removePkgState s p, true)
    simp [removeStep, h, hd]
  · show removeStep true s true p = (removePkgState s p, true)
    simp [removeStep, h]

/-- C2 witness: the amended theorem at the spec's example — removing
`bar` without `allow_nodeps` fails and changes nothing, with
`allow_nodeps` it succeeds. -/
theorem c2_witness :
    removeMany c2State ["bar"] false = (c2State, false) ∧
      removeMany c2State ["bar"] true = (removePkgState c2State "bar", true) :=
  ⟨(c2_amended c2State "bar" (by decide)).2.1 (by decide),
    (c2_amended c2State "bar" (by decide)).2.2.2⟩

/-! ### C1 — no transactional rollback in multi-operation requests -/

/-- C1 counterexample: in the three-operation request
`remove [a, b, c]`, the middle operation fails (`d` depends on `b`)
and the call reports failure — yet the database afterwards is not the
pre-request state: the earlier removal of `a` remains visible and the
later removal of `c` is still applied. -/
theorem c1_counterexample :
    (removeMany c1State ["a", "b", "c"] false).2 = false ∧
      dictContains (removeMany c1State ["a", "b", "c"] false).1.installed "a" = false ∧
      dictContains (removeMany c1State ["a", "b", "c"] false).1.installed "c" = false ∧
      dictContains (removeMany c1State ["a", "b", "c"] false).1.installed "b" = true ∧
      (removeMany c1State ["a", "b", "c"] false).1 ≠ c1State := by
  decide

/-- C1 amended: operations are applied one by one with no staging and
no rollback: in a request where the first removal succeeds, the second
is blocked by dependents, and a third follows, the final database has
both the first (earlier) and the third (later) removal applied while
the failing operation's own package is still installed; it differs
from the pre-request state, and the failure is reported only through
the boolean result. -/
theorem c1_amended (s : PMState) (n1 n2 n3 : String)
    (h1 : dictContains s.installed n1 = true)
    (h2 : findDependents s n1 = [])
    (h3 : dictContains (removePkgState s n1).installed n2 = true)
    (h4 : findDependents (removePkgState s n1) n2 ≠ [])
    (h5 : dictContains (removePkgState s n1).installed n3 = true)
    (h6 : findDependents (removePkgState s n1) n3 = []) :
    removeMany s [n1, n2, n3] false =
        (removePkgState (removePkgState s n1) n3, false) ∧
      dictContains (removeMany s [n1, n2, n3] false).1.installed n1 = false ∧
      dictContains (removeMany s [n1, n2, n3] false).1.installed n3 = false ∧
      dictContains (removeMany s [n1, n2, n3] false).1.installed n2 = true ∧
      (removeMany s [n1, n2, n3] false).1 ≠ s := by
  have e1 : removeStep false s true n1 = (removePkgState s n1, true) := by
    simp [removeStep, h1, h2]
  have e2 : removeStep false (removePkgState s n1) true n2 =
      (removePkgState s n1, false) := by
    simp [removeStep, h3, h4]
  have e3 : removeStep false (removePkgState s n1) false n3 =
      (removePkgState (removePkgState s n1) n3, false) := by
    simp [removeStep, h5, h6]
  have emain : removeMany s [n1, n2, n3] false =
      (removePkgState (removePkgState s n1) n3, false) := by
    calc removeMany s [n1, n2, n3] false
        = removeFrom false (removeStep false s true n1) [n2, n3] := rfl
      _ = removeFrom false (removeStep false (removePkgState s n1) true n2) [n3] := by
          rw [e1]; rfl
      _ = removeFrom false (removeStep false (removePkgState s n1) false n3) [] := by
          rw [e2]; rfl
      _ = (removePkgState (removePkgState s n1) n3, false) := by
          rw [e3]; rfl
  have hn13 : n1 ≠ n3 := by
    intro he
    subst he
    have hc : dictContains (dictErase s.installed n1) n1 = false :=
      dictContains_dictErase_self s.installed n1
    have h5w : dictContains (dictErase s.installed n1) n1 = true := h5
    rw [hc] at h5w
    exact Bool.false_ne_true h5w
  have hn23 : n2 ≠ n3 := by
    intro he
    rw [he] at h4
    exact h4 h6
  have g1 : dictContains (dictErase (dictErase s.installed n1) n3) n1 = false := by
    rw [dictContains_dictErase_ne _ n3 n1 hn13]
    exact dictContains_dictErase_self s.installed n1
  have g2 : dictContains (dictErase (dictErase s.installed n1) n3) n2 = true := by
    rw [dictContains_dictErase_ne _ n3 n2 hn23]
    exact h3
  have g3 : dictContains (dictErase (dictErase s.installed n1) n3) n3 = false :=
    dictContains_dictErase_self (dictErase s.installed n1) n3
  have g5 : removePkgState (removePkgState s n1) n3 ≠ s := by
    intro he
    have hlen1 := length_dictErase_lt s.installed n1 h1
    have hlen2 : (dictErase (dictErase s.installed n1) n3).length ≤
        (dictErase s.installed n1).length := List.length_filter_le _ _
    have he2 : dictErase (dictErase s.installed n1) n3 = s.installed :=
      congrArg PMState.installed he
    rw [he2] at hlen2
    omega
  exact ⟨emain, by rw [emain]; exact g1, by rw [emain]; exact g3,
    by rw [emain]; exact g2, by rw [emain]; exact g5⟩

/-- C1 witness: the amended theorem at the concrete four-package
database, removing `a` (free), then `b` (blocked by `d`), then `c`
(free, applied after the failure). -/
theorem c1_witness :
    removeMany c1State ["a", "b", "c"] false =
        (removePkgState (removePkgState c1State "a") "c", false) ∧
      dictContains (removeMany c1State ["a", "b", "c"] false).1.installed "a" = false ∧
      dictContains (removeMany c1State ["a", "b", "c"] false).1.installed "c" = false ∧
      dictContains (removeMany c1State ["a", "b", "c"] false).1.installed "b" = true ∧
      (removeMany c1State ["a", "b", "c"] false).1 ≠ c1State :=
  c1_amended c1State "a" "b" "c" (by decide) (by decide) (by decide) (by decide)
    (by decide) (by decide)

/-! ### C3 — empty upgrade set upgrades nothing -/

/-- C3: the upgrade-everything branch fires only on `None`
(`package_names is None`); the CLI passes the empty list, for which no
package at all is processed for upgrade, while the full installed list
(and `None`) processes every installed package — contradicting the
CLI's own "default: all" contract. -/
theorem c3_code_bug :
    (upgradeRun c3State (some [])).2.1 = [] ∧
      (upgradeRun c3State none).2.1 = ["foo"] ∧
      (upgradeRun c3State (some ["foo"])).2.1 = ["foo"] ∧
      c3State.installed.map Prod.fst = ["foo"] := by
  decide

/-! ### Downloader cleanup and retry lemmas -/

/-- Every failing return of `downloader.download_file` has removed the
destination file. -/
theorem dlFile_fail_none (o : HttpOutcome) (d : Option (List Nat)) :
    (Downloader.download_file o d).2 = false →
      (Downloader.download_file o d).1 = none := by
  cases o with
  | reqFail => intro _; rfl
  | midFail w => intro _; rfl
  | okResp cs len =>
    simp only [Downloader.download_file]
    split
    · intro _; rfl
    · intro hcontra; simp at hcontra

/-- A failing run of the retry loop that performed at least one
attempt ends with no file at the destination. -/
theorem retryGo_fail_none (url : String) (o : Nat → HttpOutcome)
    (chk : Option (List Nat → Bool)) :
    ∀ (remaining attempt : Nat) (d : Option (List Nat)), 1 ≤ remaining →
      (Downloader.retryGo url o chk attempt remaining d).ok = false →
      (Downloader.retryGo url o chk attempt remaining d).file = none := by
  intro remaining
  induction remaining with
  | zero => intro attempt d hr; exact absurd hr (by omega)
  | succ m ih =>
    intro attempt d _ hf
    obtain ⟨d1, b, hdb⟩ : ∃ d1 b, Downloader.download_file (o attempt) d = (d1, b) :=
      ⟨_, _, rfl⟩
    simp only [Downloader.retryGo, hdb] at hf ⊢
    cases b with
    | true =>
      cases chk with
      | none => simp at hf
      | some c =>
        by_cases hv : Downloader.verify_checksum c d1 = true
        · simp [hv] at hf
        · simp only [hv, Bool.false_eq_true, if_false] at hf ⊢
          by_cases hm : m = 0
          · simp [hm]
          · simp only [hm, if_false] at hf ⊢
            exact ih (attempt + 1) none (by omega) hf
    | false =>
      have hd1 : d1 = none := by
        have hh := dlFile_fail_none (o attempt) d
        rw [hdb] at hh
        exact hh rfl
      subst hd1
      simp only [Bool.false_eq_true, if_false] at hf ⊢
      by_cases hm : m = 0
      · simp [hm]
      · simp only [hm, if_false] at hf ⊢
        exact ih (attempt + 1) none (by omega) hf

/-- Full characterization of the retry loop when every attempt's
download fails: all passes attempt the same single URL and the sleeps
are the powers of two for every pass but the last. -/
theorem retryGo_allFail (url : String) (o : Nat → HttpOutcome)
    (chk : Option (List Nat → Bool))
    (h : ∀ (k : Nat) (d0 : Option (List Nat)),
      (Downloader.download_file (o k) d0).2 = false) :
    ∀ (remaining attempt : Nat) (d : Option (List Nat)),
      Downloader.retryGo url o chk attempt remaining d =
        ⟨if remaining = 0 then d else none, false,
          List.replicate remaining url,
          (List.range (remaining - 1)).map (fun i => 2 ^ (attempt + i))⟩ := by
  intro remaining
  induction remaining with
  | zero => intro attempt d; rfl
  | succ m ih =>
    intro attempt d
    obtain ⟨d1, b, hdb⟩ : ∃ d1 b, Downloader.download_file (o attempt) d = (d1, b) :=
      ⟨_, _, rfl⟩
    have hb : b = false := by
      have hh := h attempt d
      rw [hdb] at hh
      exact hh
    subst hb
    have hd1 : d1 = none := by
      have hh := dlFile_fail_none (o attempt) d
      rw [hdb] at hh
      exact hh rfl
    subst hd1
    simp only [Downloader.retryGo, hdb, Bool.false_eq_true, if_false]
    by_cases hm : m = 0
    · subst hm
      simp
    · obtain ⟨m1, rfl⟩ : ∃ m1, m = m1 + 1 := ⟨m - 1, by omega⟩
      have hsleeps : (2 : Nat) ^ attempt ::
          List.map (fun i => 2 ^ (attempt + 1 + i)) (List.range m1) =
          List.map (fun i => 2 ^ (attempt + i)) (List.range (m1 + 1)) := by
        rw [List.range_succ_eq_map, List.map_cons, List.map_map]
        refine congrArg₂ List.cons (by simp) (List.map_congr_left ?_)
        intro i _
        simp only [Function.comp_apply]
        congr 1
        omega
      simp only [hm, if_false, ih (attempt + 1) none, Nat.succ_ne_zero,
        Nat.add_sub_cancel]
      simp [List.replicate_succ, hsleeps]

/-! ### C6 — partial files on failure paths -/

/-- C6 counterexample: when the transport raises mid-stream after one
chunk, `MirrorManager._download_remote` has no cleanup code, so the
mirror fetch returns failure while the partial file `[7, 7]` is still
present at the destination. -/
theorem c6_counterexample :
    (mirrorDownloadFile ["http://m1"] (fun _ => RemoteOutcome.failMid [[7, 7]]) none).ok
        = false ∧
      (mirrorDownloadFile ["http://m1"] (fun _ => RemoteOutcome.failMid [[7, 7]]) none).file
        = some [7, 7] := by
  decide

/-- C6 amended: the downloader module's own failure paths do clean up
— every failing `downloader.download_file` return leaves no file at
the destination, and every failing `download_with_retry` run that made
at least one attempt likewise ends with no file — but the mirror
manager's remote download path does not (see the counterexample). -/
theorem c6_amended :
    (∀ (o : HttpOutcome) (d : Option (List Nat)),
        (Downloader.download_file o d).2 = false →
          (Downloader.download_file o d).1 = none) ∧
      (∀ (url : String) (o : Nat → HttpOutcome) (chk : Option (List Nat → Bool))
          (maxRetries : Nat) (d : Option (List Nat)), 1 ≤ maxRetries →
        (Downloader.download_with_retry url o chk maxRetries d).ok = false →
          (Downloader.download_with_retry url o chk maxRetries d).file = none) :=
  ⟨dlFile_fail_none,
    fun url o chk maxRetries d hr hf =>
      retryGo_fail_none url o chk maxRetries 0 d hr hf⟩

/-- C6 witness: the cleanup theorem evaluated at a mid-stream failure
over a pre-existing destination file and at a fully failing 3-attempt
retry run. -/
theorem c6_witness :
    (Downloader.download_file (HttpOutcome.midFail [[1, 2]]) (some [3])).1 = none ∧
      (Downloader.download_with_retry "http://m1/core.db"
        (fun _ => HttpOutcome.reqFail) none 3 (some [3])).file = none :=
  ⟨c6_amended.1 (HttpOutcome.midFail [[1, 2]]) (some [3]) rfl,
    c6_amended.2 "http://m1/core.db" (fun _ => HttpOutcome.reqFail) none 3 (some [3])
      (by omega) (by decide)⟩

/-! ### C7 — retry structure of a failing fetch -/

/-- C7 counterexample: in a fully failing fetch, the retrying
component (`download_with_retry`, default 3 attempts, backoff 1 then 2
seconds) attempts one single URL on every pass — the second configured
mirror is never touched by it — while the only traversal of the entire
mirror list (`MirrorManager.download_file`) happens exactly once, with
no retry and no backoff; no attempt is "one full pass over the entire
mirror list". -/
theorem c7_counterexample :
    (Downloader.download_with_retry "http://m1/core.db"
        (fun _ => HttpOutcome.reqFail) none 3 none).attempts =
        ["http://m1/core.db", "http://m1/core.db", "http://m1/core.db"] ∧
      (Downloader.download_with_retry "http://m1/core.db"
        (fun _ => HttpOutcome.reqFail) none 3 none).sleeps = [1, 2] ∧
      "http://m2/core.db" ∉
        (Downloader.download_with_retry "http://m1/core.db"
          (fun _ => HttpOutcome.reqFail) none 3 none).attempts ∧
      (mirrorDownloadFile ["http://m1", "http://m2"]
        (fun _ => RemoteOutcome.failEarly) none).attempts =
        ["http://m1", "http://m2"] := by
  decide

/-- C7 amended: `download_with_retry` retries one single URL up to
`max_retries` times (all attempts equal), sleeping `2 ^ k` seconds
after failed pass `k` and not after the last; the full pass over the
mirror list lives only in `MirrorManager.download_file`, which runs it
exactly once with neither retry nor backoff. -/
theorem c7_amended (url : String) (o : Nat → HttpOutcome)
    (chk : Option (List Nat → Bool)) (maxRetries : Nat) (d : Option (List Nat))
    (h : ∀ (k : Nat) (d0 : Option (List Nat)),
      (Downloader.download_file (o k) d0).2 = false) :
    Downloader.download_with_retry url o chk maxRetries d =
        ⟨if maxRetries = 0 then d else none, false,
          List.replicate maxRetries url,
          (List.range (maxRetries - 1)).map (fun i => 2 ^ i)⟩ ∧
      (∀ (mirrors : List String) (d0 : Option (List Nat)),
        mirrorDownloadFile mirrors (fun _ => RemoteOutcome.failEarly) d0 =
          ⟨d0, false, mirrors⟩) := by
  constructor
  · rw [Downloader.download_with_retry, retryGo_allFail url o chk h maxRetries 0 d]
    simp
  · intro mirrors d0
    rw [mirrorDownloadFile, mirrorLoop_failEarly]

/-- C7 witness: the amended characterization at a concrete fully
failing 3-attempt run and a concrete two-mirror single pass. -/
theorem c7_witness :
    Downloader.download_with_retry "http://m1/core.db"
        (fun _ => HttpOutcome.reqFail) none 3 none =
        ⟨none, false,
          ["http://m1/core.db", "http://m1/core.db", "http://m1/core.db"], [1, 2]⟩ ∧
      mirrorDownloadFile ["http://m1", "http://m2"]
        (fun _ => RemoteOutcome.failEarly) none =
        ⟨none, false, ["http://m1", "http://m2"]⟩ := by
  have h := c7_amended "http://m1/core.db" (fun _ => HttpOutcome.reqFail) none 3 none
    (fun _ _ => rfl)
  exact ⟨by rw [h.1]; decide, h.2 ["http://m1", "http://m2"] none⟩

end Syzygia
